import Mathlib

/-!
Verification of the background-estimation subsystem of the Eureka S3 data
reduction step (`eureka/S3_data_reduction/background.py` and the NIRCam
`fit_bg` wrapper in `eureka/S3_data_reduction/nircam.py`).

The Python code is shallowly embedded over `List ℚ` / `List (List ℚ)` for
numpy arrays, `List Bool` for 0/1 mask rows, and explicit result types for
Python control flow (early `return`, `TypeError`, `NameError`).  The numpy
least-squares fitter `np.polyfit` is third-party code outside this
repository; the embedding is parametric in it (`PolyFit`).  `np.polyval`,
`np.ediff1d`, `np.mean`, `np.median`, `np.argmax`, and `np.std` are embedded
concretely.  Floating-point NaN/inf corner cases are embedded by their IEEE
comparison behaviour, documented at each site.  The `isrotate` pre/post
transposition of `fitbg`/`fitbg2` (pure re-orientation of inputs and
outputs) is not modelled; all statements are about the oriented arrays.
-/

/-- Type of `np.polyfit`-style least-squares fitters: x values, y values,
degree ↦ coefficient list in descending powers.  `np.polyfit` is numpy
library code (outside this repository), so the development is parametric
in the fitter: every theorem about the fitting loops holds for an
arbitrary `PolyFit`. -/
abbrev PolyFit := List ℕ → List ℚ → ℕ → List ℚ

/-- Horner evaluation of `np.polyval`: coefficients in descending powers. -/
def npPolyval (coeffs : List ℚ) (x : ℚ) : ℚ :=
  coeffs.foldl (fun acc c => acc * x + c) 0

/-- Mean of a list (`np.mean`); the empty-list case (NaN in numpy) is
handled explicitly at each call site before this is used. -/
def npMean (l : List ℚ) : ℚ := l.sum / l.length

/-- First differences (`np.ediff1d`): `[a1-a0, a2-a1, ...]`. -/
def ediff1d (l : List ℚ) : List ℚ := List.zipWith (fun a b => a - b) l.tail l

/-- Population variance, the square of `np.std` (ddof = 0).  The embedding
works with the variance instead of the standard deviation so that all
definitions stay inside ℚ; comparisons against `threshold * np.std` are
encoded square-free (see `bgStep`). -/
def npVar (l : List ℚ) : ℚ := npMean (l.map (fun x => (x - npMean l) ^ 2))

/-- Index of the first maximum of a list (`np.argmax` returns the first
occurrence of the maximum); helper carrying current index, best value and
best index. -/
def argmaxGo : List ℚ → ℕ → ℚ → ℕ → ℕ
  | [], _, _, best => best
  | x :: xs, idx, bv, best =>
      if bv < x then argmaxGo xs (idx + 1) x idx else argmaxGo xs (idx + 1) bv best

/-- `np.argmax` over a rational list (first index attaining the maximum). -/
def npArgmax : List ℚ → ℕ
  | [] => 0
  | x :: xs => argmaxGo xs 1 x 0

/-- Insert into an ascending list, keeping it ascending. -/
def insertSorted (x : ℚ) : List ℚ → List ℚ
  | [] => [x]
  | y :: ys => if x ≤ y then x :: y :: ys else y :: insertSorted x ys

/-- Ascending sort (insertion sort; the median only depends on the sorted
multiset, so this matches the sort `np.median` performs). -/
def npSort (l : List ℚ) : List ℚ := l.foldr insertSorted []

/-- Median as computed by `np.median`: sort, take the middle element for odd
length, the mean of the two middle elements for even length.  (`np.median`
of an empty array is NaN; theorems about the median branch therefore carry
a nonemptiness hypothesis.) -/
def npMedian (l : List ℚ) : ℚ :=
  if l.length % 2 = 1 then (npSort l).getD (l.length / 2) 0
  else ((npSort l).getD (l.length / 2 - 1) 0 + (npSort l).getD (l.length / 2) 0) / 2

/-- Number of `true` entries of a 0/1 mask slice (`np.sum` over a boolean
mask slice). -/
def countTrue (l : List Bool) : ℕ := (l.filter (fun b => b)).length

/-- Number of currently good candidate columns of a row:
`len(xvals[np.where(mask[j, xvals])])`. -/
def goodCount (xvals : List ℕ) (m : List Bool) : ℕ :=
  (xvals.filter (fun i => m.getD i false)).length

/-- Result of one iteration of the per-row rejection `while` loop of
`fitbg` (background.py lines 193-229): the `except` path whose diagnostic
re-raises the `IndexError` (see `rowStep`), exit of the loop (with the
coefficients computed in this iteration, `none` when `goodxvals` was empty
so no fit happened), or rejection of one column. -/
inductive RowStep
  | err
  | exit (coeffs : Option (List ℚ))
  | reject (col : ℕ)
deriving DecidableEq, Repr

/-- The currently good candidate columns of a row:
`goodxvals = xvals[np.where(mask[j, xvals])]` (line 195). -/
def goodX (xvals : List ℕ) (m : List Bool) : List ℕ :=
  xvals.filter (fun i => m.getD i false)

/-- The good data values of a row: `dataslice = dataim[j, goodxvals]`
(line 202). -/
def dataSlice (dataRow : List ℚ) (g : List ℕ) : List ℚ :=
  g.map (fun i => dataRow.getD i 0)

/-- The fitted coefficients of one iteration:
`coeffs = np.polyfit(goodxvals, dataslice, deg=degs[j])` (lines 209, 336). -/
def rowCoeffs (pf : PolyFit) (dataRow : List ℚ) (degj : ℕ) (g : List ℕ) : List ℚ :=
  pf g (dataSlice dataRow g) degj

/-- The residuals of one iteration: `dataslice - np.polyval(coeffs,
goodxvals)` (lines 211-213, 338-352), common to `fitbg` and `fitbg2`. -/
def rowResiduals (pf : PolyFit) (dataRow : List ℚ) (degj : ℕ) (g : List ℕ) : List ℚ :=
  List.zipWith (fun a b => a - b) (dataSlice dataRow g)
    (g.map (fun (i : ℕ) => npPolyval (rowCoeffs pf dataRow degj g) (i : ℚ)))

/-- The robust spread statistic of `fitbg`:
`stdres = np.mean(np.abs(np.ediff1d(residuals)))` (line 219). -/
def rowSpread (pf : PolyFit) (dataRow : List ℚ) (degj : ℕ) (g : List ℕ) : ℚ :=
  npMean ((ediff1d (rowResiduals pf dataRow degj g)).map (fun d => |d|))

/-- The per-pixel deviation counts of `fitbg`:
`stdevs = np.abs(residuals) / stdres` (line 222). -/
def rowStdevs (pf : PolyFit) (dataRow : List ℚ) (degj : ℕ) (g : List ℕ) : List ℚ :=
  (rowResiduals pf dataRow degj g).map (fun r => |r| / rowSpread pf dataRow degj g)

/-- One iteration of the `while (nobadpixels == False)` body of `fitbg`
(background.py lines 193-229) for one row.

* `xvals[np.where(mask[j, xvals])]` raises `IndexError` exactly when some
  entry of `xvals` is out of bounds for the mask row: the `.err` case.  The
  `except` handler prints three diagnostics and then its fourth print,
  `print(np.where(mask[j, xvals]))` (line 200), re-evaluates the very
  indexing that failed, re-raising the `IndexError` inside the handler —
  uncaught — so the bare `return` on line 201 is dead code and the
  exception propagates out of the whole `fitbg` call.
* `np.ediff1d` of a single residual is empty, so `stdres = np.mean([])` is
  NaN; then `stdevs[loc] > threshold` is False and the loop exits: the
  second `.exit` case.
* When `stdres == 0` the code substitutes `np.inf`; then every
  `stdevs = |residual|/inf` is `0.0`, `np.argmax` of the all-zero array is
  `0`, and the pixel `goodxvals[0]` is rejected iff `0 > threshold`. -/
def rowStep (pf : PolyFit) (threshold : ℚ) (dataRow : List ℚ) (degj : ℕ)
    (xvals : List ℕ) (m : List Bool) : RowStep :=
  if xvals.any (fun v => decide (m.length ≤ v)) then .err
  else if (goodX xvals m).isEmpty then .exit none
  else if (ediff1d (rowResiduals pf dataRow degj (goodX xvals m))).isEmpty then
    .exit (some (rowCoeffs pf dataRow degj (goodX xvals m)))
  else if rowSpread pf dataRow degj (goodX xvals m) = 0 then
    (if (0 : ℚ) > threshold then .reject ((goodX xvals m).getD 0 0)
     else .exit (some (rowCoeffs pf dataRow degj (goodX xvals m))))
  else if (rowStdevs pf dataRow degj (goodX xvals m)).getD
      (npArgmax (rowStdevs pf dataRow degj (goodX xvals m))) 0 > threshold then
    .reject ((goodX xvals m).getD (npArgmax (rowStdevs pf dataRow degj (goodX xvals m))) 0)
  else .exit (some (rowCoeffs pf dataRow degj (goodX xvals m)))

/-- The per-row rejection `while` loop of `fitbg`, with an explicit fuel
argument (`none` = fuel exhausted; `rowLoop` below always supplies
sufficient fuel, see `rowLoopF_isSome_of_fuel`).  A successful run returns
the final mask row, the coefficients computed by the final iteration
(`none` iff `goodxvals` was empty), and the number of executed loop-body
iterations. -/
def rowLoopF (pf : PolyFit) (threshold : ℚ) (dataRow : List ℚ) (degj : ℕ)
    (xvals : List ℕ) : ℕ → List Bool →
    Option (Except Unit (List Bool × Option (List ℚ) × ℕ))
  | 0, _ => none
  | fuel + 1, m =>
    match rowStep pf threshold dataRow degj xvals m with
    | .err => some (.error ())
    | .exit c => some (.ok (m, c, 1))
    | .reject i =>
      match rowLoopF pf threshold dataRow degj xvals fuel (m.set i false) with
      | none => none
      | some (.error e) => some (.error e)
      | some (.ok (m2, c, k)) => some (.ok (m2, c, k + 1))

/-- The per-row rejection loop of `fitbg`, run with sufficient fuel (each
rejection strictly decreases `goodCount`, so `goodCount + 1` iterations
always suffice; `rowLoop_isSome` proves the fuel is never exhausted). -/
def rowLoop (pf : PolyFit) (threshold : ℚ) (dataRow : List ℚ) (degj : ℕ)
    (xvals : List ℕ) (m : List Bool) :
    Option (Except Unit (List Bool × Option (List ℚ) × ℕ)) :=
  rowLoopF pf threshold dataRow degj xvals (goodCount xvals m + 1) m

/-- Outcome of `fitbg` (background.py lines 122-250) under Python 3
semantics: a normal `(bg, mask)` return; the uncaught `IndexError`
re-raised by the `except` handler's own diagnostic
`print(np.where(mask[j, xvals]))` (line 200), which re-evaluates the
failing indexing, so the handler's bare `return` (line 201) is dead code
and the exception propagates out of `fitbg`; or the `TypeError` raised by
evaluating `deg < 0` when `deg is None`. -/
inductive FitbgResult
  | ok (bg : List (List ℚ)) (mask : List (List Bool))
  | indexError
  | typeError
deriving DecidableEq, Repr

/-- The candidate column indices of row `j` of `fitbg`:
`np.concatenate((range(x1[j]), range(x2[j]+1, nx)))`. -/
def fitbgXvals (nx x1j x2j : ℕ) : List ℕ :=
  List.range x1j ++ List.range' (x2j + 1) (nx - (x2j + 1))

/-- The per-row degree downgrade of `fitbg` (line 191): if either strip
outside the spectral region has fewer than `deg` good pixels, fit a
constant (`degs[j] = 0`). -/
def fitbgDeg (d : ℕ) (nx x1j x2j : ℕ) (maskRow : List Bool) : ℕ :=
  if countTrue (maskRow.take x1j) < d ∨
     countTrue ((maskRow.take nx).drop (x2j + 1)) < d then 0 else d

/-- One full row of the polynomial branch of `fitbg`: run the rejection
loop, then `bg[j] = np.polyval(coeffs, range(nx))` when the final
`goodxvals` was nonempty (equivalently, when the final iteration produced
coefficients), else leave the row at its zero initialisation.  The
`Option.getD` default is unreachable: `rowLoop` always supplies enough
fuel (`rowLoop_isSome`). -/
def fitbgRow (pf : PolyFit) (threshold : ℚ) (d : ℕ) (nx : ℕ)
    (dataRow : List ℚ) (maskRow : List Bool) (x1j x2j : ℕ) :
    Except Unit (List ℚ × List Bool) :=
  match (rowLoop pf threshold dataRow (fitbgDeg d nx x1j x2j maskRow)
      (fitbgXvals nx x1j x2j) maskRow).getD (.error ()) with
  | .error _ => .error ()
  | .ok (m2, some coeffs, _) =>
    .ok ((List.range nx).map (fun (i : ℕ) => npPolyval coeffs (i : ℚ)), m2)
  | .ok (m2, none, _) => .ok (List.replicate nx 0, m2)

/-- The pooled good out-of-region pixel values used by the `deg < 0`
median branch of `fitbg` (lines 172-177): values of `dataim` at positions
where the mask is good and the column lies in `[:x1[0]]` or `[x2[0]+1:nx]`
(both strips pooled over all rows; the code assumes all `x1`, `x2` entries
are equal and uses `x1[0]`, `x2[0]`). -/
def oorGoodVals (dataim : List (List ℚ)) (mask : List (List Bool))
    (x1 x2 : List ℕ) : List ℚ :=
  let ny := dataim.length
  let nx := (dataim.headD []).length
  (List.range ny).flatMap (fun j =>
    ((List.range nx).filter
        (fun i => decide (i < x1.headD 0) || decide (x2.headD 0 + 1 ≤ i))).filterMap
      (fun i =>
        if (mask.getD j []).getD i false then some ((dataim.getD j []).getD i 0)
        else none))

/-- The row loop of the polynomial branch of `fitbg` (`for j in
range(ny)`, line 186): rows are processed in order and the first row whose
`goodxvals` indexing raises aborts the whole frame. -/
def fitbgRows (pf : PolyFit) (threshold : ℚ) (d : ℕ) (nx : ℕ)
    (dataim : List (List ℚ)) (mask : List (List Bool)) (x1 x2 : List ℕ) :
    List ℕ → Except Unit (List (List ℚ × List Bool))
  | [] => .ok []
  | j :: js =>
    match fitbgRow pf threshold d nx (dataim.getD j []) (mask.getD j [])
        (x1.getD j 0) (x2.getD j 0) with
    | .error e => .error e
    | .ok r =>
      match fitbgRows pf threshold d nx dataim mask x1 x2 js with
      | .error e => .error e
      | .ok rs => .ok (r :: rs)

/-- Shallow embedding of `fitbg` (background.py lines 122-250) for the
`isrotate = 0` orientation, parametric in the numpy least-squares fitter.

Python 3 control flow at the top (lines 172-180): `if deg < 0` is
evaluated first; when `deg` is `None` this comparison itself raises
`TypeError: '<' not supported between instances of 'NoneType' and 'int'`,
so the `elif deg == None` branch (zero background) is unreachable.  When
`deg < 0` the whole surface is filled with the median of the pooled good
out-of-region pixels.  Otherwise each row is fitted by `fitbgRow`; the
first row whose `goodxvals` indexing raises aborts the whole frame with an
uncaught `IndexError` (re-raised by the handler's diagnostic print at line
200; the bare `return` on line 201 is dead code). -/
def fitbg (pf : PolyFit) (dataim : List (List ℚ)) (mask : List (List Bool))
    (x1 x2 : List ℕ) (deg : Option ℤ) (threshold : ℚ) : FitbgResult :=
  let ny := dataim.length
  let nx := (dataim.headD []).length
  match deg with
  | none => .typeError
  | some d =>
    if d < 0 then
      .ok (List.replicate ny (List.replicate nx (npMedian (oorGoodVals dataim mask x1 x2))))
        mask
    else
      match fitbgRows pf threshold d.toNat nx dataim mask x1 x2 (List.range ny) with
      | .error _ => .indexError
      | .ok rows => .ok (rows.map Prod.fst) (rows.map Prod.snd)

/-- Outcome of `fitbg2` (background.py lines 253-396) under Python 3
semantics: a normal `(bg, bgmask)` return, the `NameError` raised by the
undefined name `mask2` in the `deg < 0` branch (line 306), or the
`TypeError` raised by evaluating `deg < 0` when `deg is None`. -/
inductive Fitbg2Result
  | ok (bg : List (List ℚ)) (bgmask : List (List Bool))
  | nameError
  | typeError
deriving DecidableEq, Repr

/-- Result of one iteration of the per-row rejection loop of `fitbg2`
(lines 321-371); this loop has no reachable exception path (its `xvals`
come from `np.where(bgmask[j] == 1)` and are always in bounds). -/
inductive BgStep
  | exit (coeffs : Option (List ℚ))
  | reject (col : ℕ)
deriving DecidableEq, Repr

/-- The worst-pixel index of one `fitbg2` iteration:
`loc = np.argmax(np.abs(residuals))` (line 355). -/
def bgLoc (pf : PolyFit) (dataRow : List ℚ) (degj : ℕ) (g : List ℕ) : ℕ :=
  npArgmax ((rowResiduals pf dataRow degj g).map (fun r => |r|))

/-- The residuals of one `fitbg2` iteration with the worst one deleted:
`residuals[np.delete(np.arange(len(residuals)), loc)]` (lines 357-358). -/
def bgOthers (pf : PolyFit) (dataRow : List ℚ) (degj : ℕ) (g : List ℕ) : List ℚ :=
  (rowResiduals pf dataRow degj g).eraseIdx (bgLoc pf dataRow degj g)

/-- One iteration of the `while (nobadpixels == False)` body of `fitbg2`
(lines 321-371) for one row, operating on the background mask row.

* `loc = np.argmax(np.abs(residuals))`; `stdres = np.std` of the residuals
  with index `loc` deleted is tested (`np.std` of an empty array is NaN, so
  with a single residual the comparison is False and the loop exits: the
  `bgOthers .isEmpty` case).
* `stdres == 0` is substituted by `np.inf` exactly as in `fitbg`: all
  `stdevs` become `0.0` and `goodxvals[loc]` is rejected iff
  `0 > threshold`.
* For `stdres > 0`, the float test `|residuals[loc]| / stdres > threshold`
  is encoded square-free over ℚ: it holds iff `threshold < 0`, or
  `threshold ≥ 0` and `residuals[loc]^2 > threshold^2 * stdres^2` (strict
  monotonicity of squaring on nonnegatives); `npVar (bgOthers ...)` is
  `stdres^2`.  `fitbg2_leave_worst_out` proves this encoding equal to the
  real-number test against `threshold * Real.sqrt (variance)`. -/
def bgStep (pf : PolyFit) (threshold : ℚ) (dataRow : List ℚ) (degj : ℕ)
    (xvals : List ℕ) (bm : List Bool) : BgStep :=
  if (goodX xvals bm).isEmpty then .exit none
  else if (bgOthers pf dataRow degj (goodX xvals bm)).isEmpty then
    .exit (some (rowCoeffs pf dataRow degj (goodX xvals bm)))
  else if npVar (bgOthers pf dataRow degj (goodX xvals bm)) = 0 then
    (if (0 : ℚ) > threshold then
      .reject ((goodX xvals bm).getD (bgLoc pf dataRow degj (goodX xvals bm)) 0)
     else .exit (some (rowCoeffs pf dataRow degj (goodX xvals bm))))
  else if threshold < 0 ∨
      ((rowResiduals pf dataRow degj (goodX xvals bm)).getD (bgLoc pf dataRow degj (goodX xvals bm)) 0) ^ 2 >
        threshold ^ 2 * npVar (bgOthers pf dataRow degj (goodX xvals bm)) then
    .reject ((goodX xvals bm).getD (bgLoc pf dataRow degj (goodX xvals bm)) 0)
  else .exit (some (rowCoeffs pf dataRow degj (goodX xvals bm)))

/-- The per-row rejection `while` loop of `fitbg2`, fuelled like
`rowLoopF`.  Returns final background-mask row, final coefficients, and
iteration count. -/
def bgLoopF (pf : PolyFit) (threshold : ℚ) (dataRow : List ℚ) (degj : ℕ)
    (xvals : List ℕ) : ℕ → List Bool →
    Option (List Bool × Option (List ℚ) × ℕ)
  | 0, _ => none
  | fuel + 1, bm =>
    match bgStep pf threshold dataRow degj xvals bm with
    | .exit c => some (bm, c, 1)
    | .reject i =>
      match bgLoopF pf threshold dataRow degj xvals fuel (bm.set i false) with
      | none => none
      | some (m2, c, k) => some (m2, c, k + 1)

/-- The per-row rejection loop of `fitbg2` with sufficient fuel. -/
def bgLoop (pf : PolyFit) (threshold : ℚ) (dataRow : List ℚ) (degj : ℕ)
    (xvals : List ℕ) (bm : List Bool) :
    Option (List Bool × Option (List ℚ) × ℕ) :=
  bgLoopF pf threshold dataRow degj xvals (goodCount xvals bm + 1) bm

/-- The per-row degree downgrade of `fitbg2` (line 319): left and right
detector halves of the background-mask row are counted. -/
def fitbg2Deg (d : ℕ) (nx : ℕ) (bmRow : List Bool) : ℕ :=
  if countTrue (bmRow.take (nx / 2)) < d ∨
     countTrue ((bmRow.take nx).drop (nx / 2)) < d then 0 else d

/-- One full row of the polynomial branch of `fitbg2`: candidate columns
are `np.where(bgmask[j] == 1)[0]` (computed once, before the loop), the
rejection loop shrinks the background-mask row, and the background row is
evaluated from the final coefficients when the final `goodxvals` was
nonempty.  The `getD` default is unreachable (`bgLoop_isSome`). -/
def fitbg2Row (pf : PolyFit) (threshold : ℚ) (d : ℕ) (nx : ℕ)
    (dataRow : List ℚ) (bmRow : List Bool) : List ℚ × List Bool :=
  match (bgLoop pf threshold dataRow (fitbg2Deg d nx bmRow)
      ((List.range bmRow.length).filter (fun i => bmRow.getD i false)) bmRow).getD
      (bmRow, none, 0) with
  | (m2, some coeffs, _) =>
      ((List.range nx).map (fun (i : ℕ) => npPolyval coeffs (i : ℚ)), m2)
  | (m2, none, _) => (List.replicate nx 0, m2)

/-- Shallow embedding of `fitbg2` (background.py lines 253-396) for the
`isrotate = 0` orientation.  Python 3 control flow at the top: `deg < 0`
raises `TypeError` for `deg = None`; for `deg < 0` the branch body
evaluates `np.median(dataim[np.where(mask2)])`, and the name `mask2` is
defined nowhere in scope, so a `NameError` is raised before anything else
happens.  The `mask` parameter is otherwise unused (the loop mutates and
returns the background mask only). -/
def fitbg2 (pf : PolyFit) (dataim : List (List ℚ)) (mask : List (List Bool))
    (bgmask : List (List Bool)) (deg : Option ℤ) (threshold : ℚ) : Fitbg2Result :=
  let ny := dataim.length
  let nx := (dataim.headD []).length
  match deg with
  | none => .typeError
  | some d =>
    if d < 0 then .nameError
    else
      let rows := (List.range ny).map (fun j =>
        fitbg2Row pf threshold d.toNat nx (dataim.getD j []) (bgmask.getD j []))
      .ok (rows.map Prod.fst) (rows.map Prod.snd)

/-- The write-back callback `writeBG` of `BGsubtraction` (background.py
lines 63-67): given a job result `(bg_data, bg_mask, n)`, write the
background into `data.subbg[n]` and the mask into `data.submask[n]`.  The
two output cubes are modelled as functions from integration index. -/
def writeBG {β γ : Type} (st : (ℕ → β) × (ℕ → γ)) (arg : β × γ × ℕ) :
    (ℕ → β) × (ℕ → γ) :=
  (Function.update st.1 arg.2.2 arg.1, Function.update st.2 arg.2.2 arg.2.1)

/-- A dispatched job, modelling `inst.fit_bg(data.subdata[n],
data.submask[n], n, meta, isplots)` (nircam.py lines 108-114): the fit of
integration `n` together with the integration index `n` returned in the
job's result triple. -/
def fitBGJob {β γ : Type} (f : ℕ → β × γ) (n : ℕ) : β × γ × ℕ :=
  ((f n).1, (f n).2, n)

/-- The dispatcher of `BGsubtraction` (lines 72-102): every job result is
handed to `writeBG`, in the order the jobs complete.  With one CPU the
completion order is `range(int_start, n_int)` itself; with a worker pool
it is an arbitrary permutation of it. -/
def BGdispatch {β γ : Type} (f : ℕ → β × γ) (order : List ℕ)
    (st : (ℕ → β) × (ℕ → γ)) : (ℕ → β) × (ℕ → γ) :=
  order.foldl (fun s n => writeBG s (fitBGJob f n)) st

/-- Concrete degree-0 instantiation of the abstract fitter, used by the
witnesses: the least-squares constant fit of `np.polyfit(x, y, 0)` is the
mean of `y`. -/
def polyfitDeg0 : PolyFit := fun _ ys _ => [npMean ys]

/-! ### Basic list lemmas used by the loop analysis -/

theorem getD_true_lt_length {m : List Bool} {i : ℕ}
    (h : m.getD i false = true) : i < m.length := by
  by_contra hle
  push_neg at hle
  rw [List.getD_eq_default _ _ hle] at h
  exact Bool.false_ne_true h

theorem getD_set_false_self (m : List Bool) (i : ℕ) :
    (m.set i false).getD i false = false := by
  induction m generalizing i with
  | nil => simp [List.getD]
  | cons a tl ih =>
    cases i with
    | zero => simp [List.set, List.getD]
    | succ n => simpa [List.set, List.getD] using ih n

theorem getD_set_ne (m : List Bool) (b : Bool) {i j : ℕ} (h : j ≠ i) :
    (m.set i b).getD j false = m.getD j false := by
  induction m generalizing i j with
  | nil => simp [List.set]
  | cons a tl ih =>
    cases i with
    | zero =>
      cases j with
      | zero => exact absurd rfl h
      | succ n => simp [List.set, List.getD]
    | succ k =>
      cases j with
      | zero => simp [List.set, List.getD]
      | succ n =>
        simp only [List.set, List.getD_cons_succ]
        exact ih (fun hc => h (by rw [hc]))

theorem filter_length_mono {α : Type} {p q : α → Bool} (l : List α)
    (h : ∀ x ∈ l, q x = true → p x = true) :
    (l.filter q).length ≤ (l.filter p).length := by
  induction l with
  | nil => simp
  | cons a tl ih =>
    have htl : ∀ x ∈ tl, q x = true → p x = true := fun x hx => h x (List.mem_cons_of_mem a hx)
    by_cases hq : q a = true
    · have hp : p a = true := h a (List.mem_cons_self a tl) hq
      simp only [List.filter_cons, hq, hp, if_true, List.length_cons]
      exact Nat.succ_le_succ (ih htl)
    · simp only [List.filter_cons, hq, if_false]
      by_cases hp : p a = true
      · simp only [hp, if_true, List.length_cons]
        exact Nat.le_succ_of_le (ih htl)
      · simp only [hp, if_false]
        exact ih htl

theorem filter_length_lt {α : Type} [DecidableEq α] {p q : α → Bool} (l : List α) (i : α)
    (hmem : i ∈ l) (hp : p i = true) (hq : q i = false)
    (h : ∀ x ∈ l, q x = true → p x = true) :
    (l.filter q).length < (l.filter p).length := by
  induction l with
  | nil => cases hmem
  | cons a tl ih =>
    have htl : ∀ x ∈ tl, q x = true → p x = true := fun x hx => h x (List.mem_cons_of_mem a hx)
    by_cases hai : a = i
    · subst hai
      simp only [List.filter_cons, hq, hp, if_true, if_false, List.length_cons]
      exact Nat.lt_succ_of_le (filter_length_mono tl htl)
    · have hmem' : i ∈ tl := by
        rcases List.mem_cons.mp hmem with h1 | h1
        · exact absurd h1.symm hai
        · exact h1
      have hlt := ih hmem' htl
      by_cases hq' : q a = true
      · have hp' : p a = true := h a (List.mem_cons_self a tl) hq'
        simpa [List.filter_cons, hq', hp'] using Nat.succ_lt_succ hlt
      · simp only [List.filter_cons, hq', if_false]
        by_cases hp' : p a = true
        · simp only [hp', if_true, List.length_cons]
          exact Nat.lt_succ_of_lt hlt
        · simpa [hp'] using hlt

theorem goodCount_set_false_le (xv : List ℕ) (m : List Bool) (i : ℕ) :
    goodCount xv (m.set i false) ≤ goodCount xv m := by
  apply filter_length_mono
  intro x _ hx
  by_cases hxi : x = i
  · subst hxi
    rw [getD_set_false_self] at hx
    cases hx
  · rwa [getD_set_ne m false hxi] at hx

theorem goodCount_set_false_lt (xv : List ℕ) (m : List Bool) (i : ℕ)
    (hmem : i ∈ xv) (hg : m.getD i false = true) :
    goodCount xv (m.set i false) < goodCount xv m := by
  apply filter_length_lt xv i hmem hg (getD_set_false_self m i)
  intro x _ hx
  by_cases hxi : x = i
  · subst hxi
    rw [getD_set_false_self] at hx
    cases hx
  · rwa [getD_set_ne m false hxi] at hx

theorem argmaxGo_lt (xs : List ℚ) : ∀ (idx best : ℕ) (bv : ℚ), best < idx →
    argmaxGo xs idx bv best < idx + xs.length := by
  induction xs with
  | nil => intro idx best bv h; simpa [argmaxGo] using h
  | cons x tl ih =>
    intro idx best bv h
    simp only [argmaxGo, List.length_cons]
    by_cases hc : bv < x
    · rw [if_pos hc]
      have := ih (idx + 1) idx x (Nat.lt_succ_self idx)
      omega
    · rw [if_neg hc]
      have := ih (idx + 1) best bv (Nat.lt_succ_of_lt h)
      omega

theorem npArgmax_lt {l : List ℚ} (h : l ≠ []) : npArgmax l < l.length := by
  cases l with
  | nil => exact absurd rfl h
  | cons x tl =>
    have := argmaxGo_lt tl 1 0 x Nat.one_pos
    simp only [npArgmax, List.length_cons]
    omega

theorem getD_mem {α : Type} {l : List α} {i : ℕ} (h : i < l.length) (d : α) :
    l.getD i d ∈ l := by
  rw [List.getD_eq_getElem l d h]
  exact List.getElem_mem h

theorem ne_nil_of_not_isEmpty {α : Type} {l : List α} (h : ¬ l.isEmpty = true) :
    l ≠ [] := by
  intro hc; subst hc; exact h rfl

theorem dataSlice_length (dataRow : List ℚ) (g : List ℕ) :
    (dataSlice dataRow g).length = g.length := by
  rw [dataSlice, List.length_map]

theorem rowResiduals_length (pf : PolyFit) (dataRow : List ℚ) (degj : ℕ) (g : List ℕ) :
    (rowResiduals pf dataRow degj g).length = g.length := by
  rw [rowResiduals, List.length_zipWith, dataSlice_length, List.length_map, Nat.min_self]

theorem ediff1d_length (l : List ℚ) : (ediff1d l).length = l.length - 1 := by
  rw [ediff1d, List.length_zipWith, List.length_tail]
  omega

theorem rowStdevs_length (pf : PolyFit) (dataRow : List ℚ) (degj : ℕ) (g : List ℕ) :
    (rowStdevs pf dataRow degj g).length = g.length := by
  rw [rowStdevs, List.length_map, rowResiduals_length]

/-- Membership facts about an entry of `goodX`. -/
theorem goodX_getD_spec {xvals : List ℕ} {m : List Bool} {loc : ℕ}
    (hloc : loc < (goodX xvals m).length) :
    (goodX xvals m).getD loc 0 ∈ xvals ∧ m.getD ((goodX xvals m).getD loc 0) false = true := by
  have hmem : (goodX xvals m).getD loc 0 ∈ goodX xvals m := getD_mem hloc 0
  have hmem2 : (goodX xvals m).getD loc 0 ∈ xvals.filter (fun i => m.getD i false) := hmem
  have h3 := List.mem_filter.mp hmem2
  exact ⟨h3.1, h3.2⟩

/-! ### Facts about a single iteration of the `fitbg` rejection loop -/

/-- A rejected column is a candidate column that is currently good, and a
rejection can only happen with at least two good candidates (with one good
candidate the `ediff1d` of the single residual is empty and the NaN mean
forces an exit). -/
theorem rowStep_reject_spec {pf : PolyFit} {t : ℚ} {dataRow : List ℚ} {degj : ℕ}
    {xvals : List ℕ} {m : List Bool} {i : ℕ}
    (h : rowStep pf t dataRow degj xvals m = .reject i) :
    i ∈ xvals ∧ m.getD i false = true ∧ 2 ≤ goodCount xvals m := by
  have hgc : goodCount xvals m = (goodX xvals m).length := rfl
  unfold rowStep at h
  by_cases h1 : (xvals.any fun v => decide (m.length ≤ v)) = true
  · rw [if_pos h1] at h; cases h
  · rw [if_neg h1] at h
    by_cases h2 : (goodX xvals m).isEmpty = true
    · rw [if_pos h2] at h; cases h
    · rw [if_neg h2] at h
      by_cases h3 : (ediff1d (rowResiduals pf dataRow degj (goodX xvals m))).isEmpty = true
      · rw [if_pos h3] at h; cases h
      · rw [if_neg h3] at h
        have h2len : 2 ≤ (goodX xvals m).length := by
          have hd := ediff1d_length (rowResiduals pf dataRow degj (goodX xvals m))
          have hr := rowResiduals_length pf dataRow degj (goodX xvals m)
          have hne : (ediff1d (rowResiduals pf dataRow degj (goodX xvals m))).length ≠ 0 := by
            intro hc
            exact ne_nil_of_not_isEmpty h3 (List.length_eq_zero.mp hc)
          omega
        by_cases h4 : rowSpread pf dataRow degj (goodX xvals m) = 0
        · rw [if_pos h4] at h
          by_cases h5 : (0 : ℚ) > t
          · rw [if_pos h5] at h
            cases h
            have hm := @goodX_getD_spec xvals m 0 (by omega)
            exact ⟨hm.1, hm.2, hgc ▸ h2len⟩
          · rw [if_neg h5] at h; cases h
        · rw [if_neg h4] at h
          by_cases h6 : (rowStdevs pf dataRow degj (goodX xvals m)).getD
              (npArgmax (rowStdevs pf dataRow degj (goodX xvals m))) 0 > t
          · rw [if_pos h6] at h
            cases h
            have hlt : npArgmax (rowStdevs pf dataRow degj (goodX xvals m)) <
                (goodX xvals m).length := by
              have hne2 : rowStdevs pf dataRow degj (goodX xvals m) ≠ [] := by
                intro hc
                have := congrArg List.length hc
                rw [rowStdevs_length] at this
                simp only [List.length_nil] at this
                omega
              have := npArgmax_lt hne2
              rwa [rowStdevs_length] at this
            have hm := goodX_getD_spec hlt
            exact ⟨hm.1, hm.2, hgc ▸ h2len⟩
          · rw [if_neg h6] at h; cases h

/-- The error outcome of `rowStep` is exactly the out-of-bounds indexing
of `mask[j, xvals]`. -/
theorem rowStep_err_iff {pf : PolyFit} {t : ℚ} {dataRow : List ℚ} {degj : ℕ}
    {xvals : List ℕ} {m : List Bool} :
    rowStep pf t dataRow degj xvals m = .err ↔
      (xvals.any fun v => decide (m.length ≤ v)) = true := by
  constructor
  · intro h
    unfold rowStep at h
    by_cases h1 : (xvals.any fun v => decide (m.length ≤ v)) = true
    · exact h1
    · rw [if_neg h1] at h
      by_cases h2 : (goodX xvals m).isEmpty = true
      · rw [if_pos h2] at h; cases h
      · rw [if_neg h2] at h
        by_cases h3 : (ediff1d (rowResiduals pf dataRow degj (goodX xvals m))).isEmpty = true
        · rw [if_pos h3] at h; cases h
        · rw [if_neg h3] at h
          by_cases h4 : rowSpread pf dataRow degj (goodX xvals m) = 0
          · rw [if_pos h4] at h
            by_cases h5 : (0 : ℚ) > t
            · rw [if_pos h5] at h; cases h
            · rw [if_neg h5] at h; cases h
          · rw [if_neg h4] at h
            by_cases h6 : (rowStdevs pf dataRow degj (goodX xvals m)).getD
                (npArgmax (rowStdevs pf dataRow degj (goodX xvals m))) 0 > t
            · rw [if_pos h6] at h; cases h
            · rw [if_neg h6] at h; cases h
  · intro h
    unfold rowStep
    rw [if_pos h]

/-- With no good candidate and in-bounds candidates, the body exits
immediately (`nobadpixels = True` at line 205) having fitted nothing. -/
theorem rowStep_empty {pf : PolyFit} {t : ℚ} {dataRow : List ℚ} {degj : ℕ}
    {xvals : List ℕ} {m : List Bool}
    (hin : (xvals.any fun v => decide (m.length ≤ v)) = false)
    (hempty : goodCount xvals m = 0) :
    rowStep pf t dataRow degj xvals m = .exit none := by
  unfold rowStep
  rw [if_neg (by rw [hin]; exact Bool.false_ne_true), if_pos]
  have : (goodX xvals m).length = 0 := hempty
  rw [List.length_eq_zero.mp this]
  rfl

/-- An exit carrying no coefficients only happens when there is no good
candidate (every other exit returns the coefficients of the final fit). -/
theorem rowStep_exit_none {pf : PolyFit} {t : ℚ} {dataRow : List ℚ} {degj : ℕ}
    {xvals : List ℕ} {m : List Bool}
    (h : rowStep pf t dataRow degj xvals m = .exit none) :
    goodCount xvals m = 0 := by
  unfold rowStep at h
  by_cases h1 : (xvals.any fun v => decide (m.length ≤ v)) = true
  · rw [if_pos h1] at h; cases h
  · rw [if_neg h1] at h
    by_cases h2 : (goodX xvals m).isEmpty = true
    · have : goodX xvals m = [] := by
        cases hg : goodX xvals m with
        | nil => rfl
        | cons a tl => rw [hg] at h2; cases h2
      simpa [goodCount, goodX] using congrArg List.length this
    · rw [if_neg h2] at h
      by_cases h3 : (ediff1d (rowResiduals pf dataRow degj (goodX xvals m))).isEmpty = true
      · rw [if_pos h3] at h; cases h
      · rw [if_neg h3] at h
        by_cases h4 : rowSpread pf dataRow degj (goodX xvals m) = 0
        · rw [if_pos h4] at h
          by_cases h5 : (0 : ℚ) > t
          · rw [if_pos h5] at h; cases h
          · rw [if_neg h5] at h; cases h
        · rw [if_neg h4] at h
          by_cases h6 : (rowStdevs pf dataRow degj (goodX xvals m)).getD
              (npArgmax (rowStdevs pf dataRow degj (goodX xvals m))) 0 > t
          · rw [if_pos h6] at h; cases h
          · rw [if_neg h6] at h; cases h

/-- A rejected `fitbg2` column is a candidate that is currently good in the
background mask, and needs at least two good candidates (with one, the
leave-worst-out residual list is empty and `np.std([])` is NaN). -/
theorem bgStep_reject_spec {pf : PolyFit} {t : ℚ} {dataRow : List ℚ} {degj : ℕ}
    {xvals : List ℕ} {bm : List Bool} {i : ℕ}
    (h : bgStep pf t dataRow degj xvals bm = .reject i) :
    i ∈ xvals ∧ bm.getD i false = true ∧ 2 ≤ goodCount xvals bm := by
  have hgc : goodCount xvals bm = (goodX xvals bm).length := rfl
  unfold bgStep at h
  by_cases h2 : (goodX xvals bm).isEmpty = true
  · rw [if_pos h2] at h; cases h
  · rw [if_neg h2] at h
    have hgne : goodX xvals bm ≠ [] := by
      intro hc; rw [hc] at h2; exact h2 rfl
    have hg1 : 1 ≤ (goodX xvals bm).length := by
      cases hg : goodX xvals bm with
      | nil => exact absurd hg hgne
      | cons a tl => simp [hg]
    by_cases h3 : (bgOthers pf dataRow degj (goodX xvals bm)).isEmpty = true
    · rw [if_pos h3] at h; cases h
    · rw [if_neg h3] at h
      have hrlen := rowResiduals_length pf dataRow degj (goodX xvals bm)
      have hlocres : bgLoc pf dataRow degj (goodX xvals bm) <
          (rowResiduals pf dataRow degj (goodX xvals bm)).length := by
        have hne2 : (rowResiduals pf dataRow degj (goodX xvals bm)).map (fun r => |r|) ≠ [] := by
          intro hc
          have := congrArg List.length hc
          rw [List.length_map, hrlen] at this
          simp only [List.length_nil] at this
          omega
        have := npArgmax_lt hne2
        rw [List.length_map] at this
        exact this
      have h2len : 2 ≤ (goodX xvals bm).length := by
        have hone : (bgOthers pf dataRow degj (goodX xvals bm)).length ≠ 0 := by
          intro hc
          exact ne_nil_of_not_isEmpty h3 (List.length_eq_zero.mp hc)
        have herase := List.length_eraseIdx_add_one hlocres
        have herase2 : (bgOthers pf dataRow degj (goodX xvals bm)).length + 1 =
            (rowResiduals pf dataRow degj (goodX xvals bm)).length := herase
        omega
      have hloc : bgLoc pf dataRow degj (goodX xvals bm) < (goodX xvals bm).length := by
        rwa [hrlen] at hlocres
      have hm := goodX_getD_spec hloc
      by_cases h4 : npVar (bgOthers pf dataRow degj (goodX xvals bm)) = 0
      · rw [if_pos h4] at h
        by_cases h5 : (0 : ℚ) > t
        · rw [if_pos h5] at h
          cases h
          exact ⟨hm.1, hm.2, hgc ▸ h2len⟩
        · rw [if_neg h5] at h; cases h
      · rw [if_neg h4] at h
        by_cases h6 : t < 0 ∨
            ((rowResiduals pf dataRow degj (goodX xvals bm)).getD (bgLoc pf dataRow degj (goodX xvals bm)) 0) ^ 2 >
              t ^ 2 * npVar (bgOthers pf dataRow degj (goodX xvals bm))
        · rw [if_pos h6] at h
          cases h
          exact ⟨hm.1, hm.2, hgc ▸ h2len⟩
        · rw [if_neg h6] at h; cases h

/-- With `xvals` duplicate-free, a rejection removes exactly one good
candidate. -/
theorem goodCount_set_false_nodup (xv : List ℕ) (m : List Bool) (i : ℕ)
    (hnd : xv.Nodup) (hmem : i ∈ xv) (hg : m.getD i false = true) :
    goodCount xv (m.set i false) = goodCount xv m - 1 := by
  induction xv with
  | nil => cases hmem
  | cons a tl ih =>
    have hnd2 := List.nodup_cons.mp hnd
    by_cases hai : a = i
    · subst hai
      have hagree : ∀ x ∈ tl, (m.set a false).getD x false = m.getD x false := by
        intro x hx
        have hxa : x ≠ a := fun hc => hnd2.1 (hc ▸ hx)
        exact getD_set_ne m false hxa
      have heq : tl.filter (fun x => (m.set a false).getD x false) =
          tl.filter (fun x => m.getD x false) :=
        List.filter_congr (fun x hx => by rw [hagree x hx])
      simp only [goodCount, List.filter_cons, getD_set_false_self, hg, if_true,
        Bool.false_eq_true, if_false, heq, List.length_cons]
      omega
    · have hmem2 : i ∈ tl := by
        rcases List.mem_cons.mp hmem with h1 | h1
        · exact absurd h1.symm hai
        · exact h1
      have hrec := ih hnd2.2 hmem2
      have hglt := goodCount_set_false_lt tl m i hmem2 hg
      have hset : (m.set i false).getD a false = m.getD a false :=
        getD_set_ne m false hai
      by_cases hpa : m.getD a false = true
      · simp only [goodCount, List.filter_cons, hset, hpa, if_true, List.length_cons]
        simp only [goodCount] at hrec hglt
        omega
      · simp only [goodCount, List.filter_cons, hset, hpa] at *
        simp only [Bool.false_eq_true, if_false]
        exact hrec

/-! ### The `fitbg` rejection loop: termination, fuel adequacy, monotonicity -/

theorem rowLoopF_isSome {pf : PolyFit} {t : ℚ} {dataRow : List ℚ} {degj : ℕ}
    {xvals : List ℕ} : ∀ (fuel : ℕ) (m : List Bool), goodCount xvals m < fuel →
    (rowLoopF pf t dataRow degj xvals fuel m).isSome = true := by
  intro fuel
  induction fuel with
  | zero => intro m h; omega
  | succ n ih =>
    intro m h
    cases hs : rowStep pf t dataRow degj xvals m with
    | err => simp [rowLoopF, hs]
    | exit c => simp [rowLoopF, hs]
    | reject i =>
      have hspec := rowStep_reject_spec hs
      have hlt := goodCount_set_false_lt xvals m i hspec.1 hspec.2.1
      have hih := ih (m.set i false) (by omega)
      simp only [rowLoopF, hs]
      cases hrec : rowLoopF pf t dataRow degj xvals n (m.set i false) with
      | none => rw [hrec] at hih; cases hih
      | some r =>
        cases r with
        | error e => simp
        | ok v =>
          obtain ⟨m2, c, k⟩ := v
          simp

/-- The canonical fuel of `rowLoop` is always sufficient: the loop
terminates. -/
theorem rowLoop_isSome (pf : PolyFit) (t : ℚ) (dataRow : List ℚ) (degj : ℕ)
    (xvals : List ℕ) (m : List Bool) :
    (rowLoop pf t dataRow degj xvals m).isSome = true :=
  rowLoopF_isSome (goodCount xvals m + 1) m (Nat.lt_succ_self _)

/-- Combined invariant of a completed `fitbg` rejection loop: the mask only
loses good pixels, the good-candidate count never grows, the number of
iterations is at most `max 1 (goodCount)`, and (for duplicate-free
candidates) a loop that starts with at least one good candidate always ends
with coefficients from a successful fit. -/
theorem rowLoopF_ok_spec {pf : PolyFit} {t : ℚ} {dataRow : List ℚ} {degj : ℕ}
    {xvals : List ℕ} : ∀ (fuel : ℕ) (m m2 : List Bool) (c : Option (List ℚ)) (k : ℕ),
    rowLoopF pf t dataRow degj xvals fuel m = some (.ok (m2, c, k)) →
    (∀ j, m2.getD j false = true → m.getD j false = true) ∧
    goodCount xvals m2 ≤ goodCount xvals m ∧
    k ≤ max 1 (goodCount xvals m) ∧
    (xvals.Nodup → goodCount xvals m ≠ 0 → c ≠ none) := by
  intro fuel
  induction fuel with
  | zero => intro m m2 c k h; simp [rowLoopF] at h
  | succ n ih =>
    intro m m2 c k h
    cases hs : rowStep pf t dataRow degj xvals m with
    | err =>
      simp only [rowLoopF, hs, Option.some.injEq] at h
      cases h
    | exit c0 =>
      simp only [rowLoopF, hs, Option.some.injEq, Except.ok.injEq, Prod.mk.injEq] at h
      obtain ⟨rfl, rfl, rfl⟩ := h
      refine ⟨fun j hj => hj, le_rfl, le_max_left 1 _, ?_⟩
      intro _ hcz hc
      subst hc
      exact hcz (rowStep_exit_none hs)
    | reject i =>
      simp only [rowLoopF, hs] at h
      cases hrec : rowLoopF pf t dataRow degj xvals n (m.set i false) with
      | none => rw [hrec] at h; cases h
      | some r =>
        cases r with
        | error e => rw [hrec] at h; simp at h
        | ok v =>
          obtain ⟨m2x, cx, kx⟩ := v
          rw [hrec] at h
          simp only [Option.some.injEq, Except.ok.injEq, Prod.mk.injEq] at h
          obtain ⟨rfl, rfl, rfl⟩ := h
          have hspec := rowStep_reject_spec hs
          have hIH := ih (m.set i false) m2x cx kx hrec
          have hlt := goodCount_set_false_lt xvals m i hspec.1 hspec.2.1
          have hg2 := hspec.2.2
          refine ⟨?_, ?_, ?_, ?_⟩
          · intro j hj
            have h1 := hIH.1 j hj
            by_cases hji : j = i
            · subst hji
              rw [getD_set_false_self] at h1
              cases h1
            · rwa [getD_set_ne m false hji] at h1
          · exact le_trans hIH.2.1 (le_of_lt hlt)
          · have h1 := hIH.2.2.1
            have h2 : max 1 (goodCount xvals (m.set i false)) ≤ goodCount xvals m - 1 :=
              max_le (by omega) (by omega)
            exact le_trans (by omega) (le_max_right 1 (goodCount xvals m))
          · intro hnd hcz
            have hdec := goodCount_set_false_nodup xvals m i hnd hspec.1 hspec.2.1
            exact hIH.2.2.2 hnd (by omega)

/-- A `fitbg` rejection loop can only end in the propagated `IndexError`
when `xvals` has an out-of-bounds index for the mask row (and the
rejections never change the row length, so the condition is invariant). -/
theorem rowLoopF_error_spec {pf : PolyFit} {t : ℚ} {dataRow : List ℚ} {degj : ℕ}
    {xvals : List ℕ} : ∀ (fuel : ℕ) (m : List Bool),
    rowLoopF pf t dataRow degj xvals fuel m = some (.error ()) →
    (xvals.any fun v => decide (m.length ≤ v)) = true := by
  intro fuel
  induction fuel with
  | zero => intro m h; simp [rowLoopF] at h
  | succ n ih =>
    intro m h
    cases hs : rowStep pf t dataRow degj xvals m with
    | err => exact rowStep_err_iff.mp hs
    | exit c =>
      simp only [rowLoopF, hs, Option.some.injEq] at h
      cases h
    | reject i =>
      simp only [rowLoopF, hs] at h
      cases hrec : rowLoopF pf t dataRow degj xvals n (m.set i false) with
      | none => rw [hrec] at h; cases h
      | some r =>
        cases r with
        | error e =>
          have := ih (m.set i false) (by rw [hrec])
          rwa [List.length_set] at this
        | ok v =>
          obtain ⟨m2x, cx, kx⟩ := v
          rw [hrec] at h
          simp at h

/-- Conversely, an out-of-bounds candidate index aborts the loop at its
first iteration with the propagated `IndexError`. -/
theorem rowLoop_error_of_malformed {pf : PolyFit} {t : ℚ} {dataRow : List ℚ}
    {degj : ℕ} {xvals : List ℕ} {m : List Bool}
    (h : (xvals.any fun v => decide (m.length ≤ v)) = true) :
    rowLoop pf t dataRow degj xvals m = some (.error ()) := by
  have hs : rowStep pf t dataRow degj xvals m = .err := rowStep_err_iff.mpr h
  simp [rowLoop, rowLoopF, hs]

/-! ### The `fitbg2` rejection loop -/

theorem bgLoopF_isSome {pf : PolyFit} {t : ℚ} {dataRow : List ℚ} {degj : ℕ}
    {xvals : List ℕ} : ∀ (fuel : ℕ) (bm : List Bool), goodCount xvals bm < fuel →
    (bgLoopF pf t dataRow degj xvals fuel bm).isSome = true := by
  intro fuel
  induction fuel with
  | zero => intro bm h; omega
  | succ n ih =>
    intro bm h
    cases hs : bgStep pf t dataRow degj xvals bm with
    | exit c => simp [bgLoopF, hs]
    | reject i =>
      have hspec := bgStep_reject_spec hs
      have hlt := goodCount_set_false_lt xvals bm i hspec.1 hspec.2.1
      have hih := ih (bm.set i false) (by omega)
      simp only [bgLoopF, hs]
      cases hrec : bgLoopF pf t dataRow degj xvals n (bm.set i false) with
      | none => rw [hrec] at hih; cases hih
      | some r =>
        obtain ⟨m2, c, k⟩ := r
        simp

theorem bgLoop_isSome (pf : PolyFit) (t : ℚ) (dataRow : List ℚ) (degj : ℕ)
    (xvals : List ℕ) (bm : List Bool) :
    (bgLoop pf t dataRow degj xvals bm).isSome = true :=
  bgLoopF_isSome (goodCount xvals bm + 1) bm (Nat.lt_succ_self _)

/-- Combined invariant of a completed `fitbg2` rejection loop: the
background mask only loses good pixels and the good-candidate count never
grows. -/
theorem bgLoopF_ok_spec {pf : PolyFit} {t : ℚ} {dataRow : List ℚ} {degj : ℕ}
    {xvals : List ℕ} : ∀ (fuel : ℕ) (bm m2 : List Bool) (c : Option (List ℚ)) (k : ℕ),
    bgLoopF pf t dataRow degj xvals fuel bm = some (m2, c, k) →
    (∀ j, m2.getD j false = true → bm.getD j false = true) ∧
    goodCount xvals m2 ≤ goodCount xvals bm := by
  intro fuel
  induction fuel with
  | zero => intro bm m2 c k h; simp [bgLoopF] at h
  | succ n ih =>
    intro bm m2 c k h
    cases hs : bgStep pf t dataRow degj xvals bm with
    | exit c0 =>
      simp only [bgLoopF, hs, Option.some.injEq, Prod.mk.injEq] at h
      obtain ⟨rfl, rfl, rfl⟩ := h
      exact ⟨fun j hj => hj, le_rfl⟩
    | reject i =>
      simp only [bgLoopF, hs] at h
      cases hrec : bgLoopF pf t dataRow degj xvals n (bm.set i false) with
      | none => rw [hrec] at h; cases h
      | some r =>
        obtain ⟨m2x, cx, kx⟩ := r
        rw [hrec] at h
        simp only [Option.some.injEq, Prod.mk.injEq] at h
        obtain ⟨rfl, rfl, rfl⟩ := h
        have hspec := bgStep_reject_spec hs
        have hIH := ih (bm.set i false) m2x cx kx hrec
        have hlt := goodCount_set_false_lt xvals bm i hspec.1 hspec.2.1
        refine ⟨?_, le_trans hIH.2 (le_of_lt hlt)⟩
        intro j hj
        have h1 := hIH.1 j hj
        by_cases hji : j = i
        · subst hji
          rw [getD_set_false_self] at h1
          cases h1
        · rwa [getD_set_ne bm false hji] at h1

/-- A frame whose row list contains an erroring row aborts with the
propagated `IndexError` (the rows before it either succeed or themselves
error). -/
theorem fitbgRows_error_of_mem {pf : PolyFit} {t : ℚ} {d nx : ℕ}
    {dataim : List (List ℚ)} {mask : List (List Bool)} {x1 x2 : List ℕ} :
    ∀ (l : List ℕ), (∃ j ∈ l, fitbgRow pf t d nx (dataim.getD j []) (mask.getD j [])
      (x1.getD j 0) (x2.getD j 0) = .error ()) →
    fitbgRows pf t d nx dataim mask x1 x2 l = .error () := by
  intro l
  induction l with
  | nil => rintro ⟨a, ha, _⟩; cases ha
  | cons b tl ih =>
    rintro ⟨a, ha, hfa⟩
    cases hfb : fitbgRow pf t d nx (dataim.getD b []) (mask.getD b [])
        (x1.getD b 0) (x2.getD b 0) with
    | error e =>
      cases e
      simp only [fitbgRows]
      rw [hfb]
    | ok v =>
      have hatl : a ∈ tl := by
        rcases List.mem_cons.mp ha with h1 | h1
        · subst h1; rw [hfa] at hfb; cases hfb
        · exact h1
      have hrec := ih ⟨a, hatl, hfa⟩
      simp only [fitbgRows]
      rw [hfb, hrec]

/-- The population variance is nonnegative (so nonzero variance is
positive). -/
theorem npVar_nonneg (l : List ℚ) : 0 ≤ npVar l := by
  rw [npVar, npMean]
  apply div_nonneg
  · apply List.sum_nonneg
    intro x hx
    rcases List.mem_map.mp hx with ⟨y, _, rfl⟩
    exact sq_nonneg _
  · positivity

/-- Square-free encoding of the float test `|r| / sqrt v > t` used by
`bgStep`, proved equal to the real-number comparison against
`t * sqrt v`. -/
theorem stdTest_iff (r v t : ℚ) (hv : 0 < v) :
    (t < 0 ∨ r ^ 2 > t ^ 2 * v) ↔ ((|r| : ℚ) : ℝ) > (t : ℝ) * Real.sqrt (v : ℝ) := by
  have hvR : (0 : ℝ) < (v : ℝ) := by exact_mod_cast hv
  have hspos : 0 < Real.sqrt (v : ℝ) := Real.sqrt_pos.mpr hvR
  have hs2 : Real.sqrt (v : ℝ) ^ 2 = (v : ℝ) := Real.sq_sqrt (le_of_lt hvR)
  have hcast : ((|r| : ℚ) : ℝ) = |(r : ℝ)| := by push_cast; ring
  rw [hcast]
  constructor
  · rintro (ht | hr)
    · have htR : (t : ℝ) < 0 := by exact_mod_cast ht
      have h1 : (t : ℝ) * Real.sqrt (v : ℝ) < 0 := mul_neg_of_neg_of_pos htR hspos
      exact lt_of_lt_of_le h1 (abs_nonneg _)
    · have h1 : ((r : ℝ)) ^ 2 > ((t : ℝ)) ^ 2 * (v : ℝ) := by exact_mod_cast hr
      nlinarith [abs_nonneg (r : ℝ), sq_abs (r : ℝ), hspos, hs2,
        sq_nonneg ((t : ℝ) * Real.sqrt (v : ℝ) + |(r : ℝ)|)]
  · intro hgt
    by_cases ht : t < 0
    · exact Or.inl ht
    · right
      have htR : (0 : ℝ) ≤ (t : ℝ) := by exact_mod_cast not_lt.mp ht
      have h3 : (r : ℝ) ^ 2 > (t : ℝ) ^ 2 * (v : ℝ) := by
        nlinarith [abs_nonneg (r : ℝ), sq_abs (r : ℝ), hspos, hs2,
          mul_nonneg htR (le_of_lt hspos)]
      exact_mod_cast h3

/-- Slot-level characterization of the dispatcher: the final value of an
output slot is the job result for that integration index when a job for it
was run, and the initial value otherwise — independent of the order in
which the jobs completed. -/
theorem BGdispatch_apply {β γ : Type} (f : ℕ → β × γ) :
    ∀ (order : List ℕ) (st : (ℕ → β) × (ℕ → γ)) (n : ℕ),
    (BGdispatch f order st).1 n = (if n ∈ order then (f n).1 else st.1 n) ∧
    (BGdispatch f order st).2 n = (if n ∈ order then (f n).2 else st.2 n) := by
  intro order
  induction order with
  | nil => intro st n; simp [BGdispatch]
  | cons a tl ih =>
    intro st n
    have hstep : BGdispatch f (a :: tl) st = BGdispatch f tl (writeBG st (fitBGJob f a)) := rfl
    rw [hstep]
    rcases ih (writeBG st (fitBGJob f a)) n with ⟨h1, h2⟩
    rw [h1, h2]
    by_cases hmem : n ∈ tl
    · simp [hmem, List.mem_cons]
    · by_cases hna : n = a
      · subst hna
        simp [hmem, writeBG, fitBGJob, Function.update_same]
      · simp [hmem, hna, writeBG, fitBGJob, Function.update_noteq hna]

/-! ### Claim theorems -/

/-- C1: the dispatcher of `BGsubtraction` writes the background and mask
computed from input integration `n` into output slot `n` of
`data.subbg` / `data.submask` — `writeBG` is keyed by the index returned in
each job's `(bg, mask, n)` triple — so for any completion order that is a
permutation of the serial order `range(int_start, n_int)` the final cubes
are identical to the serial (`ncpu = 1`) run: slot `n` holds exactly the
fit of integration `n`, and untouched slots keep their initial value. -/
theorem BGsubtraction_index_fidelity {β γ : Type} (f : ℕ → β × γ)
    (st : (ℕ → β) × (ℕ → γ)) (a len : ℕ) (order : List ℕ)
    (hperm : order.Perm (List.range' a len)) :
    BGdispatch f order st = BGdispatch f (List.range' a len) st ∧
    (∀ n ∈ List.range' a len,
      (BGdispatch f order st).1 n = (f n).1 ∧ (BGdispatch f order st).2 n = (f n).2) ∧
    (∀ n, n ∉ List.range' a len →
      (BGdispatch f order st).1 n = st.1 n ∧ (BGdispatch f order st).2 n = st.2 n) := by
  have hmem : ∀ n, n ∈ order ↔ n ∈ List.range' a len := fun n => hperm.mem_iff
  refine ⟨?_, ?_, ?_⟩
  · have h1 : ∀ n, (BGdispatch f order st).1 n = (BGdispatch f (List.range' a len) st).1 n := by
      intro n
      rw [(BGdispatch_apply f order st n).1, (BGdispatch_apply f (List.range' a len) st n).1]
      by_cases h : n ∈ List.range' a len
      · rw [if_pos ((hmem n).mpr h), if_pos h]
      · rw [if_neg (fun hc => h ((hmem n).mp hc)), if_neg h]
    have h2 : ∀ n, (BGdispatch f order st).2 n = (BGdispatch f (List.range' a len) st).2 n := by
      intro n
      rw [(BGdispatch_apply f order st n).2, (BGdispatch_apply f (List.range' a len) st n).2]
      by_cases h : n ∈ List.range' a len
      · rw [if_pos ((hmem n).mpr h), if_pos h]
      · rw [if_neg (fun hc => h ((hmem n).mp hc)), if_neg h]
    exact Prod.ext (funext h1) (funext h2)
  · intro n hn
    constructor
    · rw [(BGdispatch_apply f order st n).1, if_pos ((hmem n).mpr hn)]
    · rw [(BGdispatch_apply f order st n).2, if_pos ((hmem n).mpr hn)]
  · intro n hn
    constructor
    · rw [(BGdispatch_apply f order st n).1, if_neg (fun hc => hn ((hmem n).mp hc))]
    · rw [(BGdispatch_apply f order st n).2, if_neg (fun hc => hn ((hmem n).mp hc))]

/-- Witness for C1: three jobs completing in the order 2, 0, 1 produce the
same output cubes as the serial order 0, 1, 2. -/
theorem BGsubtraction_index_fidelity_witness :
    BGdispatch (fun n => (n + 1, n + 2)) [2, 0, 1] (fun _ => 0, fun _ => 0) =
      BGdispatch (fun n => (n + 1, n + 2)) (List.range' 0 3) (fun _ => 0, fun _ => 0) :=
  (BGsubtraction_index_fidelity (fun n => (n + 1, n + 2)) (fun _ => 0, fun _ => 0)
    0 3 [2, 0, 1] (by decide)).1

/-- C4 (code bug): under Python 3, calling `fitbg` with `deg = None`
raises `TypeError` at the comparison `deg < 0` (line 172) before the
`elif deg == None` zero-background branch (lines 178-180) can run; it never
returns the all-zero surface the dead branch was written to produce. -/
theorem fitbg_none_typeError (pf : PolyFit) (dataim : List (List ℚ))
    (mask : List (List Bool)) (x1 x2 : List ℕ) (t : ℚ) :
    fitbg pf dataim mask x1 x2 none t = .typeError := rfl

/-- C10: for every input, `fitbg2` with `deg < 0` evaluates
`np.median(dataim[np.where(mask2)])` (line 306) where the name `mask2` is
defined nowhere, so it raises `NameError` and never returns a background
surface. -/
theorem fitbg2_negative_deg_nameError (pf : PolyFit) (dataim : List (List ℚ))
    (mask bgmask : List (List Bool)) (d : ℤ) (t : ℚ) (hd : d < 0) :
    fitbg2 pf dataim mask bgmask (some d) t = .nameError := by
  simp only [fitbg2]
  rw [if_pos hd]

/-- Witness for C10 at a concrete frame and `deg = -1`. -/
theorem fitbg2_negative_deg_nameError_witness :
    fitbg2 polyfitDeg0 [[1]] [[true]] [[true]] (some (-1)) 5 = .nameError :=
  fitbg2_negative_deg_nameError polyfitDeg0 [[1]] [[true]] [[true]] (-1) 5 (by decide)

/-- C5: `fitbg` with `deg < 0` returns the surface every cell of which is
the single scalar `np.median` of the pooled good out-of-region pixel
values (both strips, all rows; `oorGoodVals`), with the mask passed
through unchanged.  The nonemptiness hypothesis records that `np.median`
of an empty array would be NaN. -/
theorem fitbg_negative_deg_median (pf : PolyFit) (dataim : List (List ℚ))
    (mask : List (List Bool)) (x1 x2 : List ℕ) (d : ℤ) (t : ℚ)
    (hd : d < 0) (hne : oorGoodVals dataim mask x1 x2 ≠ []) :
    fitbg pf dataim mask x1 x2 (some d) t =
      .ok (List.replicate dataim.length
        (List.replicate (dataim.headD []).length
          (npMedian (oorGoodVals dataim mask x1 x2)))) mask ∧
    ∀ j i : ℕ, j < dataim.length → i < (dataim.headD []).length →
      ((List.replicate dataim.length
          (List.replicate (dataim.headD []).length
            (npMedian (oorGoodVals dataim mask x1 x2)))).getD j []).getD i 0 =
        npMedian (oorGoodVals dataim mask x1 x2) := by
  constructor
  · simp only [fitbg]
    rw [if_pos hd]
  · intro j i hj hi
    rw [show dataim.headD [] = dataim.head?.getD [] from List.headD_eq_head?_getD] at hi
    simp [List.getD_eq_getElem?_getD, List.getElem?_replicate, hj, hi]

/-- Witness for C5, realizing the spec's concrete scenario: out-of-region
values `[10, 10, 10, 90]` all good (the in-region value 99 is excluded),
median 10, surface uniformly 10. -/
theorem fitbg_negative_deg_median_witness :
    fitbg polyfitDeg0 [[10, 10, 99, 10, 90]] [[true, true, true, true, true]]
      [2] [2] (some (-1)) 5 =
      .ok [[10, 10, 10, 10, 10]] [[true, true, true, true, true]] ∧
    npMedian (oorGoodVals [[10, 10, 99, 10, 90]] [[true, true, true, true, true]] [2] [2]) = 10 := by
  have hmed : npMedian (oorGoodVals [[10, 10, 99, 10, 90]]
      [[true, true, true, true, true]] [2] [2]) = 10 := by
    norm_num [npMedian, npSort, insertSorted, oorGoodVals, List.range, List.range.loop,
      List.filterMap_cons, List.flatMap_cons, List.flatMap_nil]
  have h := (fitbg_negative_deg_median polyfitDeg0 [[10, 10, 99, 10, 90]]
    [[true, true, true, true, true]] [2] [2] (-1) 5 (by decide) (by decide)).1
  rw [h, hmed]
  exact ⟨rfl, rfl⟩

/-- C9 (code bug): the claim — and the `except` handler's own bare
`return` on line 201 — intend that a row whose `goodxvals` indexing raises
makes `fitbg` print a diagnostic and return early for the whole frame with
no `(bg, mask)` pair, rather than raising.  The code does not do this: the
handler's fourth diagnostic, `print(np.where(mask[j, xvals]))` (line 200),
re-evaluates the failing indexing and re-raises the `IndexError` inside
the handler, uncaught, so the bare `return` is dead code and `fitbg`
aborts the whole frame by propagating the exception (it still neither
returns a pair nor continues with the remaining rows).  This theorem
evaluates the embedding at such inputs: malformed `x1`/`x2` bounds yield
the propagated `IndexError`, never a `(bg, mask)` pair and never the dead
early `return`. -/
theorem fitbg_malformed_bounds_raises (pf : PolyFit) (dataim : List (List ℚ))
    (mask : List (List Bool)) (x1 x2 : List ℕ) (d : ℤ) (t : ℚ) (hd : 0 ≤ d)
    (hbad : ∃ j < dataim.length,
      ((fitbgXvals (dataim.headD []).length (x1.getD j 0) (x2.getD j 0)).any
        (fun v => decide ((mask.getD j []).length ≤ v))) = true) :
    fitbg pf dataim mask x1 x2 (some d) t = .indexError := by
  obtain ⟨j, hj, hmal⟩ := hbad
  have hrowerr : fitbgRow pf t d.toNat (dataim.headD []).length (dataim.getD j [])
      (mask.getD j []) (x1.getD j 0) (x2.getD j 0) = .error () := by
    have hloop := @rowLoop_error_of_malformed pf t (dataim.getD j [])
      (fitbgDeg d.toNat (dataim.headD []).length (x1.getD j 0) (x2.getD j 0)
        (mask.getD j []))
      (fitbgXvals (dataim.headD []).length (x1.getD j 0) (x2.getD j 0))
      (mask.getD j []) hmal
    unfold fitbgRow
    rw [hloop]
    rfl
  have hrows := @fitbgRows_error_of_mem pf t d.toNat
    (dataim.headD []).length dataim mask x1 x2 (List.range dataim.length)
    ⟨j, List.mem_range.mpr hj, hrowerr⟩
  simp only [fitbg]
  rw [if_neg (not_lt.mpr hd), hrows]

/-- Witness for C9's failing input: a 1×2 frame with `x1 = [5]` produces
candidate indices up to 4, out of bounds for the 2-wide mask row, and the
whole frame aborts with the propagated `IndexError`. -/
theorem fitbg_malformed_bounds_raises_witness :
    fitbg polyfitDeg0 [[1, 2]] [[true, true]] [5] [1] (some 0) 5 = .indexError :=
  fitbg_malformed_bounds_raises polyfitDeg0 [[1, 2]] [[true, true]] [5] [1] 0 5
    (by decide) ⟨0, by decide, by decide⟩

/-- C2 (amended): the per-row rejection loop of `fitbg` terminates, and
executes at most `max 1 (length of the candidate index list)` loop-body
iterations: every iteration either marks exactly one currently-good
candidate bad or exits, a rejection needs at least two good candidates, and
the loop body always runs at least once — a row with an empty candidate
list still performs one (immediately exiting) iteration, which is where
the claim's bound of `length` alone fails. -/
theorem fitbg_rejection_iteration_bound (pf : PolyFit) (t : ℚ) (dataRow : List ℚ)
    (degj : ℕ) (xvals : List ℕ) (m : List Bool) :
    (rowLoop pf t dataRow degj xvals m).isSome = true ∧
    ∀ (m2 : List Bool) (c : Option (List ℚ)) (k : ℕ),
      rowLoop pf t dataRow degj xvals m = some (.ok (m2, c, k)) →
      k ≤ max 1 xvals.length := by
  refine ⟨rowLoop_isSome pf t dataRow degj xvals m, ?_⟩
  intro m2 c k h
  have hk := (rowLoopF_ok_spec (goodCount xvals m + 1) m m2 c k h).2.2.1
  have hle : goodCount xvals m ≤ xvals.length := List.length_filter_le _ _
  exact le_trans hk (max_le_max le_rfl hle)

/-- Counterexample for C2 as stated: a row with zero candidate columns
(`x1[j] = 0`, `x2[j] = nx - 1`) still executes one loop-body iteration —
the `while` body runs, finds no good candidate and exits — exceeding the
claimed bound of (number of candidate columns) = 0 iterations. -/
theorem fitbg_rejection_iteration_cex :
    rowLoop polyfitDeg0 5 [3] 0 (fitbgXvals 1 0 0) [true] =
      some (.ok ([true], none, 1)) ∧
    (fitbgXvals 1 0 0).length = 0 ∧ ¬ (1 ≤ (fitbgXvals 1 0 0).length) :=
  ⟨rfl, rfl, by decide⟩

/-- Witness for C2's amended bound at the zero-candidate row. -/
theorem fitbg_rejection_iteration_bound_witness :
    (rowLoop polyfitDeg0 5 [3] 0 (fitbgXvals 1 0 0) [true]).isSome = true ∧
    (1 : ℕ) ≤ max 1 (fitbgXvals 1 0 0).length := by
  have h := fitbg_rejection_iteration_bound polyfitDeg0 5 [3] 0 (fitbgXvals 1 0 0) [true]
  exact ⟨h.1, h.2 [true] none 1 rfl⟩

/-- Good entries of a mask row after a rejection were good before it
(entries only flip good→bad). -/
theorem getD_set_false_mono (m : List Bool) (i j : ℕ)
    (hj : (m.set i false).getD j false = true) : m.getD j false = true := by
  by_cases hji : j = i
  · subst hji
    rw [getD_set_false_self] at hj
    cases hj
  · rwa [getD_set_ne m false hji] at hj

/-- C8: a `fitbg` row whose good candidate set is empty exits its
rejection loop on the first iteration without raising, and its background
row is left at the zero initialisation (no fit ever succeeded for it);
moreover — given the `BackgroundRegionSpec` invariant, under which the
candidate list is duplicate-free — a row loop that starts with at least
one good candidate always ends with the coefficients of its last
successful fit, so "becomes empty" never happens and the zero-fill case is
exactly the empty-start case. -/
theorem fitbg_empty_candidates_row (pf : PolyFit) (t : ℚ) (d nx : ℕ)
    (dataRow : List ℚ) (maskRow : List Bool) (x1j x2j : ℕ) :
    ((∀ v ∈ fitbgXvals nx x1j x2j, v < maskRow.length) →
      goodCount (fitbgXvals nx x1j x2j) maskRow = 0 →
      fitbgRow pf t d nx dataRow maskRow x1j x2j = .ok (List.replicate nx 0, maskRow) ∧
      rowLoop pf t dataRow (fitbgDeg d nx x1j x2j maskRow) (fitbgXvals nx x1j x2j) maskRow =
        some (.ok (maskRow, none, 1))) ∧
    ((fitbgXvals nx x1j x2j).Nodup →
      ∀ (m m2 : List Bool) (c : Option (List ℚ)) (k : ℕ),
        goodCount (fitbgXvals nx x1j x2j) m ≠ 0 →
        rowLoop pf t dataRow (fitbgDeg d nx x1j x2j maskRow) (fitbgXvals nx x1j x2j) m =
          some (.ok (m2, c, k)) →
        c ≠ none) := by
  constructor
  · intro hbound hempty
    have hin : ((fitbgXvals nx x1j x2j).any fun v => decide (maskRow.length ≤ v)) = false := by
      rw [List.any_eq_false]
      intro v hv
      simpa using not_le.mpr (hbound v hv)
    have hstep := @rowStep_empty pf t dataRow (fitbgDeg d nx x1j x2j maskRow)
      (fitbgXvals nx x1j x2j) maskRow hin hempty
    have hloop : rowLoop pf t dataRow (fitbgDeg d nx x1j x2j maskRow)
        (fitbgXvals nx x1j x2j) maskRow = some (.ok (maskRow, none, 1)) := by
      unfold rowLoop
      rw [hempty]
      simp only [rowLoopF, hstep]
    refine ⟨?_, hloop⟩
    unfold fitbgRow
    rw [hloop]
    rfl
  · intro hnd m m2 c k hgc h
    exact (rowLoopF_ok_spec (goodCount (fitbgXvals nx x1j x2j) m + 1) m m2 c k h).2.2.2 hnd hgc

/-- Witness for C8: a 1-row frame with `nx = 2`, `x1 = 1`, `x2 = 0` has
candidate columns `[0, 1]`, all masked bad; the loop exits after one
iteration and the background row stays `[0, 0]`. -/
theorem fitbg_empty_candidates_row_witness :
    fitbgRow polyfitDeg0 5 1 2 [1, 2] [false, false] 1 0 = .ok ([0, 0], [false, false]) ∧
    rowLoop polyfitDeg0 5 [1, 2] (fitbgDeg 1 2 1 0 [false, false]) (fitbgXvals 2 1 0)
      [false, false] = some (.ok ([false, false], none, 1)) :=
  (fitbg_empty_candidates_row polyfitDeg0 5 1 2 [1, 2] [false, false] 1 0).1
    (by decide) (by decide)

/-- C7: both rejection loops only ever flip mask entries from good to bad,
never bad to good: a `fitbg` rejection targets a currently good candidate
of the primary mask row and strictly decreases the good-candidate count, a
completed `fitbg` loop's final mask is good-pointwise below its initial
mask with a non-increased good count, and the same holds for `fitbg2` with
the background mask. -/
theorem mask_monotonic_shrinkage (pf : PolyFit) (t : ℚ) (dataRow : List ℚ)
    (degj : ℕ) (xvals : List ℕ) (m bm : List Bool) (i : ℕ) :
    (rowStep pf t dataRow degj xvals m = .reject i →
      m.getD i false = true ∧
      (∀ j, (m.set i false).getD j false = true → m.getD j false = true) ∧
      goodCount xvals (m.set i false) < goodCount xvals m) ∧
    (∀ (m2 : List Bool) (c : Option (List ℚ)) (k : ℕ),
      rowLoop pf t dataRow degj xvals m = some (.ok (m2, c, k)) →
      (∀ j, m2.getD j false = true → m.getD j false = true) ∧
      goodCount xvals m2 ≤ goodCount xvals m) ∧
    (bgStep pf t dataRow degj xvals bm = .reject i →
      bm.getD i false = true ∧
      (∀ j, (bm.set i false).getD j false = true → bm.getD j false = true) ∧
      goodCount xvals (bm.set i false) < goodCount xvals bm) ∧
    (∀ (m2 : List Bool) (c : Option (List ℚ)) (k : ℕ),
      bgLoop pf t dataRow degj xvals bm = some (m2, c, k) →
      (∀ j, m2.getD j false = true → bm.getD j false = true) ∧
      goodCount xvals m2 ≤ goodCount xvals bm) := by
  refine ⟨?_, ?_, ?_, ?_⟩
  · intro h
    have hspec := rowStep_reject_spec h
    exact ⟨hspec.2.1, fun j => getD_set_false_mono m i j,
      goodCount_set_false_lt xvals m i hspec.1 hspec.2.1⟩
  · intro m2 c k h
    have hspec := rowLoopF_ok_spec (goodCount xvals m + 1) m m2 c k h
    exact ⟨hspec.1, hspec.2.1⟩
  · intro h
    have hspec := bgStep_reject_spec h
    exact ⟨hspec.2.1, fun j => getD_set_false_mono bm i j,
      goodCount_set_false_lt xvals bm i hspec.1 hspec.2.1⟩
  · intro m2 c k h
    exact bgLoopF_ok_spec (goodCount xvals bm + 1) bm m2 c k h

/-- Witness for C7 at a concrete rejection: masking the outlier column 3
strictly shrinks the good-candidate count. -/
theorem mask_monotonic_shrinkage_witness :
    goodCount [0, 1, 2, 3] ([true, true, true, true].set 3 false) <
      goodCount [0, 1, 2, 3] [true, true, true, true] := by
  have hstep : rowStep polyfitDeg0 2 [10, 10, 10, 90] 0 [0, 1, 2, 3]
      [true, true, true, true] = .reject 3 := by
    norm_num [rowStep, goodX, rowStdevs, rowSpread, rowResiduals, rowCoeffs, dataSlice,
      polyfitDeg0, npMean, npPolyval, ediff1d, npArgmax, argmaxGo, List.filterMap_cons]
  have h := (mask_monotonic_shrinkage polyfitDeg0 2 [10, 10, 10, 90] 0 [0, 1, 2, 3]
    [true, true, true, true] [true] 3).1
  exact (h hstep).2.2

/-- C3 (amended): in every `fitbg` rejection-loop iteration with at least
one good candidate (and in-bounds candidates), the spread statistic is
`rowSpread` — the mean of the absolute first differences of the residuals
(data minus fitted polynomial) — and, provided the threshold is
nonnegative: a zero spread is replaced by infinity so that no pixel
exceeds the threshold and the loop exits with the iteration's
coefficients; with nonzero spread the pixel at the `np.argmax` of
`|residual| / spread` is marked bad if and only if that deviation count
exceeds the threshold, and the loop exits otherwise.  (With exactly one
good candidate the first-difference list is empty, the NaN mean disables
rejection, and the loop also exits.) -/
theorem fitbg_spread_rejection (pf : PolyFit) (t : ℚ) (dataRow : List ℚ)
    (degj : ℕ) (xvals : List ℕ) (m : List Bool)
    (hin : (xvals.any fun v => decide (m.length ≤ v)) = false)
    (hgood : goodX xvals m ≠ [])
    (ht : 0 ≤ t) :
    ((ediff1d (rowResiduals pf dataRow degj (goodX xvals m))).isEmpty = true →
      rowStep pf t dataRow degj xvals m =
        .exit (some (rowCoeffs pf dataRow degj (goodX xvals m)))) ∧
    ((ediff1d (rowResiduals pf dataRow degj (goodX xvals m))).isEmpty = false →
      rowSpread pf dataRow degj (goodX xvals m) = 0 →
      rowStep pf t dataRow degj xvals m =
        .exit (some (rowCoeffs pf dataRow degj (goodX xvals m)))) ∧
    ((ediff1d (rowResiduals pf dataRow degj (goodX xvals m))).isEmpty = false →
      rowSpread pf dataRow degj (goodX xvals m) ≠ 0 →
      ((rowStep pf t dataRow degj xvals m =
          .reject ((goodX xvals m).getD
            (npArgmax (rowStdevs pf dataRow degj (goodX xvals m))) 0)) ↔
        (rowStdevs pf dataRow degj (goodX xvals m)).getD
          (npArgmax (rowStdevs pf dataRow degj (goodX xvals m))) 0 > t) ∧
      (¬ ((rowStdevs pf dataRow degj (goodX xvals m)).getD
            (npArgmax (rowStdevs pf dataRow degj (goodX xvals m))) 0 > t) →
        rowStep pf t dataRow degj xvals m =
          .exit (some (rowCoeffs pf dataRow degj (goodX xvals m))))) := by
  have hne1 : ¬ ((xvals.any fun v => decide (m.length ≤ v)) = true) := by
    rw [hin]; exact Bool.false_ne_true
  have hne2 : (goodX xvals m).isEmpty = false := by
    cases hg : goodX xvals m with
    | nil => exact absurd hg hgood
    | cons a l => rfl
  have hne2' : ¬ ((goodX xvals m).isEmpty = true) := by
    rw [hne2]; exact Bool.false_ne_true
  refine ⟨?_, ?_, ?_⟩
  · intro hd1
    unfold rowStep
    rw [if_neg hne1, if_neg hne2', if_pos hd1]
  · intro hd1 hsz
    have hd1' : ¬ ((ediff1d (rowResiduals pf dataRow degj (goodX xvals m))).isEmpty = true) := by
      rw [hd1]; exact Bool.false_ne_true
    unfold rowStep
    rw [if_neg hne1, if_neg hne2', if_neg hd1', if_pos hsz, if_neg (not_lt.mpr ht)]
  · intro hd1 hsnz
    have hd1' : ¬ ((ediff1d (rowResiduals pf dataRow degj (goodX xvals m))).isEmpty = true) := by
      rw [hd1]; exact Bool.false_ne_true
    unfold rowStep
    rw [if_neg hne1, if_neg hne2', if_neg hd1', if_neg hsnz]
    constructor
    · constructor
      · intro heq
        by_cases hc : (rowStdevs pf dataRow degj (goodX xvals m)).getD
            (npArgmax (rowStdevs pf dataRow degj (goodX xvals m))) 0 > t
        · exact hc
        · rw [if_neg hc] at heq
          cases heq
      · intro hc
        rw [if_pos hc]
    · intro hc
      rw [if_neg hc]

/-- Counterexample for C3 as stated: with a negative threshold and a row
of identical values, the spread is exactly zero, yet the code marks the
first good candidate bad (every `|residual|/inf = 0.0` exceeds a negative
threshold) instead of exiting. -/
theorem fitbg_spread_rejection_cex :
    rowSpread polyfitDeg0 [7, 7, 7] 0 (goodX [0, 1, 2] [true, true, true]) = 0 ∧
    rowStep polyfitDeg0 (-1) [7, 7, 7] 0 [0, 1, 2] [true, true, true] = .reject 0 := by
  constructor <;>
    norm_num [rowStep, rowSpread, rowResiduals, rowCoeffs, dataSlice, goodX,
      polyfitDeg0, npMean, npPolyval, ediff1d, npArgmax, argmaxGo, List.filterMap_cons]

/-- Witness for C3's amended statement: zero spread with nonnegative
threshold exits with the iteration's coefficients. -/
theorem fitbg_spread_rejection_witness :
    rowStep polyfitDeg0 5 [7, 7, 7] 0 [0, 1, 2] [true, true, true] =
      .exit (some (rowCoeffs polyfitDeg0 [7, 7, 7] 0 (goodX [0, 1, 2] [true, true, true]))) := by
  have h := fitbg_spread_rejection polyfitDeg0 5 [7, 7, 7] 0 [0, 1, 2] [true, true, true]
    (by decide) (by decide) (by norm_num)
  exact h.2.1
    (by norm_num [ediff1d, rowResiduals, rowCoeffs, dataSlice, goodX, polyfitDeg0,
      npMean, npPolyval, List.filterMap_cons])
    (by norm_num [rowSpread, ediff1d, rowResiduals, rowCoeffs, dataSlice, goodX,
      polyfitDeg0, npMean, npPolyval, List.filterMap_cons])

/-- C6: in every `fitbg2` rejection-loop iteration with at least one good
background pixel, the outlier statistic is the leave-worst-out standard
deviation: `bgLoc` is the `np.argmax` of `|residuals|`, `bgOthers` deletes
that index, and — when the remaining residuals are nonempty and their
standard deviation is nonzero — the worst pixel is rejected if and only if
its `|residual|` exceeds `threshold * sqrt(variance of the others)` (the
real-number statement of `threshold * np.std`).  A zero standard deviation
is substituted by infinity exactly as in `fitbg` (all deviation counts
become `0.0`, so the rejection test degenerates to `0 > threshold`), and
with a single residual `np.std([])` is NaN and the loop exits.  Rejection
mutates only the BackgroundMask: the primary mask never influences the
result of `fitbg2`. -/
theorem fitbg2_leave_worst_out (pf : PolyFit) (t : ℚ) (dataRow : List ℚ)
    (degj : ℕ) (xvals : List ℕ) (bm : List Bool)
    (hgood : goodX xvals bm ≠ []) :
    ((bgOthers pf dataRow degj (goodX xvals bm)).isEmpty = true →
      bgStep pf t dataRow degj xvals bm =
        .exit (some (rowCoeffs pf dataRow degj (goodX xvals bm)))) ∧
    ((bgOthers pf dataRow degj (goodX xvals bm)).isEmpty = false →
      npVar (bgOthers pf dataRow degj (goodX xvals bm)) ≠ 0 →
      ((bgStep pf t dataRow degj xvals bm =
          .reject ((goodX xvals bm).getD (bgLoc pf dataRow degj (goodX xvals bm)) 0)) ↔
        ((|(rowResiduals pf dataRow degj (goodX xvals bm)).getD
            (bgLoc pf dataRow degj (goodX xvals bm)) 0| : ℚ) : ℝ) >
          (t : ℝ) * Real.sqrt ((npVar (bgOthers pf dataRow degj (goodX xvals bm)) : ℚ) : ℝ)) ∧
      (bgStep pf t dataRow degj xvals bm =
          .reject ((goodX xvals bm).getD (bgLoc pf dataRow degj (goodX xvals bm)) 0) ∨
        bgStep pf t dataRow degj xvals bm =
          .exit (some (rowCoeffs pf dataRow degj (goodX xvals bm))))) ∧
    ((bgOthers pf dataRow degj (goodX xvals bm)).isEmpty = false →
      npVar (bgOthers pf dataRow degj (goodX xvals bm)) = 0 →
      ((bgStep pf t dataRow degj xvals bm =
          .reject ((goodX xvals bm).getD (bgLoc pf dataRow degj (goodX xvals bm)) 0)) ↔
        (0 : ℚ) > t)) ∧
    (∀ (dataim : List (List ℚ)) (maskA maskB bgmask : List (List Bool)) (dg : Option ℤ),
      fitbg2 pf dataim maskA bgmask dg t = fitbg2 pf dataim maskB bgmask dg t) := by
  have hne2' : ¬ ((goodX xvals bm).isEmpty = true) := by
    cases hg : goodX xvals bm with
    | nil => exact absurd hg hgood
    | cons a l => simp
  refine ⟨?_, ?_, ?_, ?_⟩
  · intro hoth
    unfold bgStep
    rw [if_neg hne2', if_pos hoth]
  · intro hoth hvar
    have hoth' : ¬ ((bgOthers pf dataRow degj (goodX xvals bm)).isEmpty = true) := by
      rw [hoth]; exact Bool.false_ne_true
    have hv : 0 < npVar (bgOthers pf dataRow degj (goodX xvals bm)) :=
      lt_of_le_of_ne (npVar_nonneg _) (Ne.symm hvar)
    have hiff := stdTest_iff
      ((rowResiduals pf dataRow degj (goodX xvals bm)).getD
        (bgLoc pf dataRow degj (goodX xvals bm)) 0)
      (npVar (bgOthers pf dataRow degj (goodX xvals bm))) t hv
    unfold bgStep
    rw [if_neg hne2', if_neg hoth', if_neg hvar]
    constructor
    · constructor
      · intro heq
        by_cases hc : t < 0 ∨
            ((rowResiduals pf dataRow degj (goodX xvals bm)).getD
              (bgLoc pf dataRow degj (goodX xvals bm)) 0) ^ 2 >
              t ^ 2 * npVar (bgOthers pf dataRow degj (goodX xvals bm))
        · exact hiff.mp hc
        · rw [if_neg hc] at heq
          cases heq
      · intro hreal
        rw [if_pos (hiff.mpr hreal)]
    · by_cases hc : t < 0 ∨
          ((rowResiduals pf dataRow degj (goodX xvals bm)).getD
            (bgLoc pf dataRow degj (goodX xvals bm)) 0) ^ 2 >
            t ^ 2 * npVar (bgOthers pf dataRow degj (goodX xvals bm))
      · left; rw [if_pos hc]
      · right; rw [if_neg hc]
  · intro hoth hvar0
    have hoth' : ¬ ((bgOthers pf dataRow degj (goodX xvals bm)).isEmpty = true) := by
      rw [hoth]; exact Bool.false_ne_true
    unfold bgStep
    rw [if_neg hne2', if_neg hoth', if_pos hvar0]
    constructor
    · intro heq
      by_cases hc : (0 : ℚ) > t
      · exact hc
      · rw [if_neg hc] at heq
        cases heq
    · intro hc
      rw [if_pos hc]
  · intro dataim maskA maskB bgmask dg
    rfl

/-- Witness for C6: residuals `[-13, -7, 20]`, worst index 2, others
`[-13, -7]` with variance 9 and standard deviation 3; `|20| > 5 * 3`, so
the worst background pixel (column 2) is rejected. -/
theorem fitbg2_leave_worst_out_witness :
    bgStep polyfitDeg0 5 [0, 6, 33] 0 [0, 1, 2] [true, true, true] = .reject 2 := by
  have h := (fitbg2_leave_worst_out polyfitDeg0 5 [0, 6, 33] 0 [0, 1, 2]
    [true, true, true] (by decide)).2.1
    (by norm_num [bgOthers, bgLoc, rowResiduals, rowCoeffs, dataSlice, goodX,
      polyfitDeg0, npMean, npVar, npPolyval, npArgmax, argmaxGo, List.filterMap_cons])
    (by norm_num [bgOthers, bgLoc, rowResiduals, rowCoeffs, dataSlice, goodX,
      polyfitDeg0, npMean, npVar, npPolyval, npArgmax, argmaxGo, List.filterMap_cons])
  have h1 : (rowResiduals polyfitDeg0 [0, 6, 33] 0
      (goodX [0, 1, 2] [true, true, true])).getD
      (bgLoc polyfitDeg0 [0, 6, 33] 0 (goodX [0, 1, 2] [true, true, true])) 0 = 20 := by
    norm_num [bgLoc, rowResiduals, rowCoeffs, dataSlice, goodX, polyfitDeg0,
      npMean, npPolyval, npArgmax, argmaxGo, List.filterMap_cons]
  have h2 : npVar (bgOthers polyfitDeg0 [0, 6, 33] 0
      (goodX [0, 1, 2] [true, true, true])) = 9 := by
    norm_num [bgOthers, bgLoc, rowResiduals, rowCoeffs, dataSlice, goodX,
      polyfitDeg0, npMean, npVar, npPolyval, npArgmax, argmaxGo, List.filterMap_cons]
  have hreal : ((|(rowResiduals polyfitDeg0 [0, 6, 33] 0
      (goodX [0, 1, 2] [true, true, true])).getD
        (bgLoc polyfitDeg0 [0, 6, 33] 0 (goodX [0, 1, 2] [true, true, true])) 0| : ℚ) : ℝ) >
      ((5 : ℚ) : ℝ) * Real.sqrt ((npVar (bgOthers polyfitDeg0 [0, 6, 33] 0
        (goodX [0, 1, 2] [true, true, true])) : ℚ) : ℝ) := by
    rw [h1, h2]
    rw [show (((9 : ℚ) : ℝ)) = 3 ^ 2 by norm_num,
      Real.sqrt_sq (by norm_num : (0 : ℝ) ≤ 3)]
    norm_num
  have hout := h.1.mpr hreal
  rw [hout]
  norm_num [bgLoc, goodX, rowResiduals, rowCoeffs, dataSlice, polyfitDeg0,
    npMean, npPolyval, npArgmax, argmaxGo, List.filterMap_cons]
